import Mathlib

/-!
Verification of the pok'em notification relay (`src/utils.rs`, `src/daemon.rs`,
`src/config.rs`) against its natural-language specification.

The Rust code is shallowly embedded: strings are Lean `String`s (operated on
through their character lists), the Matrix room tag map (a `BTreeMap` whose
`TagInfo` values are never consulted) is the list of its keys, HTTP header maps
and query-parameter maps are association lists, and the fallible validator
returns `Except`.  Asynchronous effects are irrelevant to the verified
properties and are dropped; each Rust function that the claims mention becomes
a pure Lean function of the state it reads and returns the state it writes.
-/

set_option autoImplicit false

/-- Models Rust `p.starts_with(s)` for strings (byte/char prefix test). -/
def strStarts (p s : String) : Bool :=
  p.data.isPrefixOf s.data

/-- Fuel-driven worker for `trimMatchesL`.  One unit of fuel per removed
occurrence; `s.length` units always suffice because `pat` is nonempty. -/
def trimMatchesLAux (pat : List Char) : Nat → List Char → List Char
  | 0, s => s
  | fuel + 1, s =>
    if pat.isPrefixOf s then trimMatchesLAux pat fuel (s.drop pat.length) else s

/-- Models Rust `s.trim_start_matches(pat)` on character lists: repeatedly
removes the pattern from the front while it is a prefix.  (Rust strips *all*
leading repetitions of the pattern, not just one.)  An empty pattern leaves
the string unchanged, as in Rust. -/
def trimMatchesL (pat s : List Char) : List Char :=
  if pat.isEmpty then s else trimMatchesLAux pat s.length s

/-- Models Rust `s.trim_start_matches(pat)` on `String`. -/
def trimStartMatches (pat s : String) : String :=
  ⟨trimMatchesL pat.data s.data⟩

/-- Models Rust `s.trim_start()` (leading whitespace removed; whitespace is
modelled by `Char.isWhitespace`, which agrees with Rust on ASCII input). -/
def rustTrimStart (s : String) : String :=
  ⟨s.data.dropWhile Char.isWhitespace⟩

/-- Models Rust `s.to_lowercase()` (ASCII-accurate; the code only compares
against ASCII literals). -/
def toLowerStr (s : String) : String :=
  ⟨s.data.map Char.toLower⟩

/-- `RoomConfig` from `config.rs`: per-room block flag and optional
authentication token.  `Default` gives `{ block := false, auth := none }`. -/
structure RoomConfig where
  block : Bool := false
  auth : Option String := none
deriving DecidableEq, Repr

/-- The reserved block tag `dev.pokem.block` (`utils.rs`). -/
def blockTag : String := "dev.pokem.block"

/-- The auth-token tag namespace `dev.pokem.auth.` (`utils.rs`). -/
def authNS : String := "dev.pokem.auth."

/-- The legacy password tag namespace `dev.pokem.pass.` (`utils.rs`). -/
def passNS : String := "dev.pokem.pass."

/-- A hyper `HeaderMap` is modelled as the association list of its entries.
hyper stores header names lowercased, which `headerGet` reproduces. -/
def headerGet (headers : List (String × String)) (name : String) : Option String :=
  (headers.find? (fun p => toLowerStr p.1 == name)).map (·.2)

/-- The header token consulted by `validate_authentication` (`utils.rs:327-336`):
the `authentication` header if present, else the `auth` header, else `""`
(`unwrap_or_default`).  Note the `else if`: a present-but-wrong
`authentication` header shadows the `auth` header. -/
def effectiveToken (headers : List (String × String)) : String :=
  match headerGet headers "authentication" with
  | some a => a
  | none =>
    match headerGet headers "auth" with
    | some a => a
    | none => ""

/-- `validate_authentication` (`utils.rs:320-355`).  With no configured token
the message passes through; otherwise the header token is compared first, then
the token is stripped from the front of the message (via `trim_start_matches`,
hence all leading repetitions) followed by leading whitespace. -/
def validate_authentication (room_config : RoomConfig)
    (headers : List (String × String)) (msg : String) : Except String String :=
  match room_config.auth with
  | some tok =>
    if effectiveToken headers == tok then
      Except.ok msg
    else if !(strStarts tok msg) then
      Except.error "Incorrect Authentication Token"
    else
      Except.ok (rustTrimStart (trimStartMatches tok msg))
  | none => Except.ok msg

/-- Models `room.set_tag(t, TagInfo::default())`: the tag map gains key `t`
(inserting an already-present key leaves the key set unchanged). -/
def setTag (tags : List String) (t : String) : List String :=
  if t ∈ tags then tags else tags ++ [t]

/-- Models `room.remove_tag(t)`: the key `t` disappears from the tag map. -/
def removeTag (tags : List String) (t : String) : List String :=
  tags.filter (fun x => x != t)

/-- The matching test of the `dev.pokem.auth.` branch of the loop in
`set_room_config` (`utils.rs:33-43`): the tag is left in place exactly when a
token is configured and the tag minus the namespace equals it. -/
def tokMatches (cfgAuth : Option String) (authToken tag : String) : Bool :=
  cfgAuth.isSome && (trimStartMatches authNS tag == authToken)

/-- The `for (tag, _) in tags` loop of `set_room_config` (`utils.rs:27-44`),
folded over the snapshot of the tag list with accumulator
(current room tags, `placed`).  Legacy `dev.pokem.pass.*` tags are removed;
`dev.pokem.auth.*` tags are kept (setting `placed`) exactly when they match
the desired token and removed otherwise; other tags are untouched. -/
def setRoomLoop (cfgAuth : Option String) (authToken : String) :
    List String → List String × Bool → List String × Bool
  | [], st => st
  | tag :: rest, st =>
    setRoomLoop cfgAuth authToken rest
      (if strStarts passNS tag then
        (removeTag st.1 tag, st.2)
      else if strStarts authNS tag then
        (if tokMatches cfgAuth authToken tag then (st.1, true)
         else (removeTag st.1 tag, st.2))
      else st)

/-- `set_room_config` (`utils.rs:16-53`) as a function from the room's tag key
list to the new tag key list: toggle the block tag, then walk the tag
snapshot removing legacy and non-matching auth tags, finally add the desired
auth tag unless it was already in place. -/
def set_room_config (tags : List String) (config : RoomConfig) : List String :=
  let t1 := if config.block then setTag tags blockTag else removeTag tags blockTag
  let authToken := (config.auth.getD "")
  let st := setRoomLoop config.auth authToken t1 (t1, false)
  if config.auth.isSome && !st.2 then setTag st.1 (authNS ++ authToken) else st.1

/-- The `for (tag, _) in tags` loop of `get_room_config` (`utils.rs:60-100`),
with accumulator (config under construction, `should_update`).  Branch order
follows the source: exact block tag, then `dev.pokem.auth.*` (first token
wins), then legacy `dev.pokem.pass.*` (sets `should_update`, first token
wins). -/
def getRoomLoop : List String → RoomConfig × Bool → RoomConfig × Bool
  | [], st => st
  | tag :: rest, st =>
    getRoomLoop rest
      (if tag == blockTag then
        ({ st.1 with block := true }, st.2)
      else if strStarts authNS tag then
        (if st.1.auth.isSome then st
         else ({ st.1 with auth := some (trimStartMatches authNS tag) }, st.2))
      else if strStarts passNS tag then
        (if st.1.auth.isSome then (st.1, true)
         else ({ st.1 with auth := some (trimStartMatches passNS tag) }, true))
      else st)

/-- `get_room_config` (`utils.rs:56-106`): scan the tags into a `RoomConfig`;
if a legacy tag was seen, immediately rewrite the room via `set_room_config`.
Returns the config together with the room's tag list afterwards. -/
def get_room_config (tags : List String) : RoomConfig × List String :=
  let st := getRoomLoop tags ({ block := false, auth := none }, false)
  (st.1, if st.2 then set_room_config tags st.1 else tags)

/-- A tag is removed by the `set_room_config` loop exactly when it is a legacy
tag or a non-matching auth tag. -/
def setBad (cfgAuth : Option String) (authToken x : String) : Bool :=
  strStarts passNS x || (strStarts authNS x && !(tokMatches cfgAuth authToken x))

/-- The canonical notification record `PokeRequest` (`daemon.rs:32-39`).
`priority` is `Option<u8>` in the source; it is modelled as an optional `Nat`
together with the 0..255 bound enforced by `parseU8`. -/
structure PokeRequest where
  topic : String
  title : Option String := none
  message : String
  priority : Option Nat := none
  tags : Option (List String) := none
deriving DecidableEq, Repr

/-- Hex digit value, for percent-decoding. -/
def hexVal (c : Char) : Option Nat :=
  if '0' ≤ c ∧ c ≤ '9' then some (c.toNat - '0'.toNat)
  else if 'a' ≤ c ∧ c ≤ 'f' then some (c.toNat - 'a'.toNat + 10)
  else if 'A' ≤ c ∧ c ≤ 'F' then some (c.toNat - 'A'.toNat + 10)
  else none

/-- Character-list worker for `urlDecode`. -/
def urlDecodeL : List Char → List Char
  | [] => []
  | '%' :: c1 :: c2 :: rest =>
    match hexVal c1, hexVal c2 with
    | some h1, some h2 => Char.ofNat (16 * h1 + h2) :: urlDecodeL rest
    | _, _ => '%' :: urlDecodeL (c1 :: c2 :: rest)
  | c :: rest => c :: urlDecodeL rest

/-- Models `urlencoding::decode` (`daemon.rs:389-392`): `%hh` escapes become
the byte they denote, malformed escapes pass through verbatim.  The model is
byte-exact for ASCII data, the only data the theorems below exercise; the
crate's additional UTF-8 re-validation of multi-byte escape sequences is not
modelled. -/
def urlDecode (s : String) : String :=
  ⟨urlDecodeL s.data⟩

/-- Models `str::parse::<u8>()`: an optional `+` sign followed by one or more
digits denoting a value that fits in eight bits; anything else is `Err`. -/
def parseU8 (s : String) : Option Nat :=
  let l := if s.data.head? = some '+' then s.data.tail else s.data
  if l.isEmpty then none
  else if l.all Char.isDigit then
    let v := l.foldl (fun a c => a * 10 + (c.toNat - '0'.toNat)) 0
    if v ≤ 255 then some v else none
  else none

/-- The named-priority table of `PokeRequest::from_request` (`daemon.rs:94-103`),
applied to a header value that failed the numeric parse. -/
def wordPriority (s : String) : Nat :=
  match toLowerStr s with
  | "min" => 1
  | "low" => 2
  | "default" => 3
  | "high" => 4
  | "urgent" => 5
  | "max" => 5
  | _ => 3

/-- Query-parameter lookup (`daemon.rs:53-60`): `form_urlencoded` pairs are
collected into a `HashMap` with lowercased keys, so a duplicated key keeps its
last value. -/
def queryGet (query : List (String × String)) (name : String) : Option String :=
  ((query.map (fun p => (toLowerStr p.1, p.2))).reverse.find?
    (fun p => p.1 == name)).map (·.2)

/-- The first present header among `x-priority`, `priority`, `prio`, `p`
(`daemon.rs:87-91`). -/
def priorityHeaderVal (headers : List (String × String)) : Option String :=
  (headerGet headers "x-priority").orElse fun _ =>
    (headerGet headers "priority").orElse fun _ =>
      (headerGet headers "prio").orElse fun _ => headerGet headers "p"

/-- Priority extraction (`daemon.rs:83-106`): a `priority` query parameter
that parses numerically wins; otherwise the first priority header is parsed
numerically with the named-word table (default 3) as fallback. -/
def extractPriority (query headers : List (String × String)) : Option Nat :=
  match queryGet query "priority" with
  | some p =>
    match parseU8 p with
    | some v => some v
    | none => (priorityHeaderVal headers).map (fun s => (parseU8 s).getD (wordPriority s))
  | none => (priorityHeaderVal headers).map (fun s => (parseU8 s).getD (wordPriority s))

/-- `PokeRequest::from_request` (`daemon.rs:43-122`).  `jsonBody` stands for
`serde_json::from_str::<PokeRequest>(&body_str)`: `some pr` when the body is a
JSON object deserializing to `pr` (which then is returned verbatim), `none`
when JSON deserialization fails and the record is assembled from the URL path,
query parameters, headers and raw body. -/
def from_request (jsonBody : Option PokeRequest) (path : String)
    (query headers : List (String × String)) (bodyStr : String) : PokeRequest :=
  match jsonBody with
  | some pr => pr
  | none =>
    { topic := ⟨path.data.dropWhile (fun c => c == '/')⟩
      title := (queryGet query "title").orElse fun _ =>
        (headerGet headers "x-title").orElse fun _ =>
          (headerGet headers "title").orElse fun _ =>
            (headerGet headers "ti").orElse fun _ => headerGet headers "t"
      message := ((queryGet query "message").orElse fun _ =>
        (headerGet headers "x-message").orElse fun _ =>
          (headerGet headers "message").orElse fun _ =>
            headerGet headers "m").getD bodyStr
      priority := extractPriority query headers
      tags := (((queryGet query "tags").orElse fun _ =>
        (headerGet headers "x-tags").orElse fun _ =>
          (headerGet headers "tags").orElse fun _ =>
            (headerGet headers "tag").orElse fun _ =>
              headerGet headers "ta")).map (fun s => s.splitOn ",") }

/-- The `urgent` flag of `daemon_poke` (`daemon.rs:394`):
`priority.is_some_and(|p| p > 3)`. -/
def urgentOf (p : Option Nat) : Bool :=
  match p with
  | some v => decide (3 < v)
  | none => false

/-- Nickname-table lookup (`HashMap::get` over the configured `rooms` map). -/
def roomsGet (rooms : List (String × String)) (k : String) : Option String :=
  (rooms.find? (fun p => p.1 == k)).map (·.2)

/-- The nickname-resolution step of `daemon_poke` (`daemon.rs:420-440`):
returns the resolved room id and the room-wide-mention flag.  With a table,
an urgent poke probes `<name>-urgent` first (mention stays `false` on a hit)
and otherwise falls back to the plain name with the mention flag set; a miss
leaves the name unchanged, with the mention flag set exactly when urgent. -/
def daemonResolveRoom (rooms : Option (List (String × String))) (urgent : Bool)
    (room_id : String) : String × Bool :=
  match rooms with
  | some r =>
    if urgent then
      match roomsGet r (room_id ++ "-urgent") with
      | some id => (id, false)
      | none =>
        match roomsGet r room_id with
        | some id => (id, true)
        | none => (room_id, true)
    else
      match roomsGet r room_id with
      | some id => (id, false)
      | none => (room_id, false)
  | none => (room_id, urgent)

/-- The routing stage of `daemon_poke` (`daemon.rs:386-440`): percent-decode
the topic into a room id, compute the urgent flag from the priority, resolve
through the nickname table. -/
def daemon_route (rooms : Option (List (String × String))) (pr : PokeRequest) :
    String × Bool :=
  daemonResolveRoom rooms (urgentOf pr.priority) (urlDecode pr.topic)

/-- The slice of Matrix room state consulted by `can_message_room`: the room
id, the tag keys, and the active-membership count (which the function, as
written, never reads). -/
structure MRoom where
  roomId : String
  tags : List String
  activeMembers : Nat
deriving DecidableEq, Repr

/-- The hard-coded example room id (`utils.rs:121`). -/
def exampleRoomId : String := "!JYrjsPjErpFSDdpwpI:jackson.dev"

/-- `can_message_room` (`utils.rs:119-140`): the example room always passes;
any other room fails exactly when its tags contain `dev.pokem.block`. -/
def can_message_room (r : MRoom) : Bool :=
  if r.roomId == exampleRoomId then true
  else if blockTag ∈ r.tags then false
  else true

/-- The final sending step of `ping_room` (`utils.rs:216-223`): if the policy
allows, the message is sent (`sendOk` models the transport result); if the
policy refuses, the failure is only logged and the function still returns
`Ok(())`.  The first component records whether a send was attempted. -/
def pingRoomSendStep (r : MRoom) (sendOk : Bool) : Bool × Except String Unit :=
  if can_message_room r then
    (true, if sendOk then Except.ok () else Except.error "Failed to send message")
  else
    (false, Except.ok ())

/-- The invite-wait loop of `ping_room` (`utils.rs:190-197`).  `invited k`
models `r.state() == RoomState::Invited` at the `k`-th check; `delay` is the
current sleep length in seconds.  Returns the list of performed sleeps and
the outcome (`Except.error` models `Err(anyhow!("Failed to join room"))`).
In the source `delay` starts at 2 and doubles, so it is a positive power of
two in every reachable call; the `delay = 0` guard exists only to make the
recursion total and is never reached from `joinWait`. -/
def joinLoop (invited : Nat → Bool) (k delay : Nat) : List Nat × Except String Unit :=
  if delay = 0 then ([], Except.ok ())
  else if invited k then
    if 60 < delay then ([], Except.error "Failed to join room")
    else Prod.map (fun l => delay :: l) id (joinLoop invited (k + 1) (2 * delay))
  else ([], Except.ok ())
termination_by 61 - delay
decreasing_by omega

/-- The invite-wait loop as entered by `ping_room`: first delay 2 seconds. -/
def joinWait (invited : Nat → Bool) : List Nat × Except String Unit :=
  joinLoop invited 0 2

example : validate_authentication ⟨false, none⟩ [] "hello" = Except.ok "hello" := rfl

example :
    validate_authentication ⟨false, some "s"⟩ [("auth", "s")] "hello" =
      Except.ok "hello" := rfl

example :
    validate_authentication ⟨false, some "ab"⟩ [] "ab ab x" =
      Except.ok "ab x" := rfl

example :
    set_room_config [] ⟨true, some "tok"⟩ =
      ["dev.pokem.block", "dev.pokem.auth.tok"] := rfl

example :
    (get_room_config ["dev.pokem.block", "dev.pokem.auth.tok"]).1 =
      ⟨true, some "tok"⟩ := rfl

example :
    get_room_config ["dev.pokem.pass.secret"] =
      (⟨false, some "secret"⟩, ["dev.pokem.auth.secret"]) := rfl

example :
    (get_room_config (set_room_config [] ⟨false, some "dev.pokem.auth.x"⟩)).1 =
      ⟨false, some "x"⟩ := rfl

example :
    from_request none "/ops" [("priority", "5")] [] "disk full" =
      { topic := "ops", message := "disk full", priority := some 5 } := rfl

example : (from_request none "/t" [("priority", "9")] [] "").priority = some 9 := rfl

example : (from_request none "/t" [] [("p", "urgent")] "").priority = some 5 := rfl

example : urlDecode "ops%20room" = "ops room" := rfl

example :
    daemon_route (some [("ops", "!a:x"), ("ops-urgent", "!b:x")])
      (from_request none "/ops" [("priority", "5")] [] "disk full") =
      ("!b:x", false) := rfl

theorem isPrefixOf_self_append (p r : List Char) : p.isPrefixOf (p ++ r) = true := by
  induction p with
  | nil => simp
  | cons a as ih => simp [List.isPrefixOf_cons₂, ih]

theorem isPrefixOf_append_left (p : List Char) :
    ∀ (q r : List Char), p.length ≤ q.length → p.isPrefixOf (q ++ r) = p.isPrefixOf q := by
  induction p with
  | nil => intro q r _; simp
  | cons a as ih =>
    intro q r h
    cases q with
    | nil => simp at h
    | cons b bs =>
      simp only [List.cons_append, List.isPrefixOf_cons₂]
      rw [ih bs r (by simpa using h)]

theorem isPrefixOf_iff_exists (p : List Char) :
    ∀ s : List Char, p.isPrefixOf s = true ↔ ∃ t, s = p ++ t := by
  induction p with
  | nil => intro s; simp
  | cons a as ih =>
    intro s
    cases s with
    | nil => simp
    | cons b bs =>
      simp only [List.isPrefixOf_cons₂, Bool.and_eq_true, beq_iff_eq, ih, List.cons_append,
        List.cons.injEq]
      constructor
      · rintro ⟨rfl, t, rfl⟩; exact ⟨t, rfl, rfl⟩
      · rintro ⟨t, rfl, rfl⟩; exact ⟨rfl, t, rfl⟩

theorem strStarts_self_append (p t : String) : strStarts p (p ++ t) = true := by
  unfold strStarts
  rw [String.data_append]
  exact isPrefixOf_self_append p.data t.data

theorem strStarts_append_eq (p q t : String) (h : p.data.length ≤ q.data.length) :
    strStarts p (q ++ t) = strStarts p q := by
  unfold strStarts
  rw [String.data_append]
  exact isPrefixOf_append_left p.data q.data t.data h

/-- The two tag namespaces exclude each other: an auth-namespace tag is never
a legacy-namespace tag. -/
theorem not_pass_of_auth (τ : String) (h : strStarts authNS τ = true) :
    strStarts passNS τ = false := by
  unfold strStarts at h ⊢
  rw [isPrefixOf_iff_exists] at h
  obtain ⟨t, ht⟩ := h
  rw [ht, isPrefixOf_append_left passNS.data authNS.data t (by decide)]
  decide

theorem auth_append_starts (t : String) : strStarts authNS (authNS ++ t) = true :=
  strStarts_self_append _ _

theorem pass_append_starts (t : String) : strStarts passNS (passNS ++ t) = true :=
  strStarts_self_append _ _

theorem auth_append_not_pass (t : String) : strStarts passNS (authNS ++ t) = false := by
  rw [strStarts_append_eq passNS authNS t (by decide)]; decide

theorem pass_append_not_auth (t : String) : strStarts authNS (passNS ++ t) = false := by
  rw [strStarts_append_eq authNS passNS t (by decide)]; decide

theorem blockTag_ne_auth_append (t : String) : blockTag ≠ authNS ++ t := by
  intro h
  have h1 : strStarts authNS blockTag = true := by
    rw [h]; exact strStarts_self_append _ _
  exact absurd h1 (by decide)

theorem trimMatchesLAux_of_not (pat s : List Char) (h : pat.isPrefixOf s = false) :
    ∀ fuel, trimMatchesLAux pat fuel s = s := by
  intro fuel
  cases fuel <;> simp [trimMatchesLAux, h]

theorem trimMatchesL_of_not (pat s : List Char) (h : pat.isPrefixOf s = false) :
    trimMatchesL pat s = s := by
  unfold trimMatchesL
  split
  · rfl
  · exact trimMatchesLAux_of_not pat s h _

theorem trimMatchesL_append (pat t : List Char) (hp : pat ≠ [])
    (h : pat.isPrefixOf t = false) : trimMatchesL pat (pat ++ t) = t := by
  unfold trimMatchesL
  rw [if_neg (by simpa using hp)]
  obtain ⟨a, as, rfl⟩ : ∃ a as, pat = a :: as := by
    cases pat with
    | nil => exact absurd rfl hp
    | cons a as => exact ⟨a, as, rfl⟩
  have hlen : ((a :: as) ++ t).length = (as.length + t.length) + 1 := by
    simp [List.length_append]
  rw [hlen]
  show (if (a :: as).isPrefixOf ((a :: as) ++ t) then
      trimMatchesLAux (a :: as) (as.length + t.length)
        (((a :: as) ++ t).drop (a :: as).length)
    else ((a :: as) ++ t)) = t
  rw [if_pos (isPrefixOf_self_append _ _), List.drop_left]
  exact trimMatchesLAux_of_not _ _ h _

theorem trimStartMatches_of_not (ns t : String) (h : strStarts ns t = false) :
    trimStartMatches ns t = t :=
  congrArg String.mk (trimMatchesL_of_not ns.data t.data h)

theorem trimStartMatches_self_append (ns t : String) (hns : ns.data ≠ [])
    (h : strStarts ns t = false) : trimStartMatches ns (ns ++ t) = t := by
  unfold trimStartMatches
  rw [String.data_append, trimMatchesL_append ns.data t.data hns h]

theorem mem_setTag (l : List String) (t x : String) :
    x ∈ setTag l t ↔ x ∈ l ∨ x = t := by
  unfold setTag
  split
  · rename_i h
    constructor
    · exact Or.inl
    · rintro (hx | rfl)
      · exact hx
      · exact h
  · simp

theorem setTag_of_mem (l : List String) (t : String) (h : t ∈ l) : setTag l t = l := by
  simp [setTag, h]

theorem self_mem_setTag (l : List String) (t : String) : t ∈ setTag l t := by
  rw [mem_setTag]; exact Or.inr rfl

theorem mem_removeTag (l : List String) (t x : String) :
    x ∈ removeTag l t ↔ x ∈ l ∧ x ≠ t := by
  simp [removeTag, List.mem_filter]

theorem removeTag_of_not_mem (l : List String) (t : String) (h : t ∉ l) :
    removeTag l t = l := by
  unfold removeTag
  apply List.filter_eq_self.mpr
  intro a ha
  simp only [bne_iff_ne, ne_eq, decide_eq_true_eq]
  intro hat
  exact h (hat ▸ ha)


theorem setRoomLoop_cons (a : Option String) (tok tag : String) (rest : List String)
    (st : List String × Bool) :
    setRoomLoop a tok (tag :: rest) st =
      setRoomLoop a tok rest
        (if strStarts passNS tag then (removeTag st.1 tag, st.2)
         else if strStarts authNS tag then
           (if tokMatches a tok tag then (st.1, true) else (removeTag st.1 tag, st.2))
         else st) := rfl

theorem mem_setRoomLoop (a : Option String) (tok : String) :
    ∀ (l acc : List String) (pl : Bool) (x : String),
      x ∈ (setRoomLoop a tok l (acc, pl)).1 ↔
        x ∈ acc ∧ ¬(setBad a tok x = true ∧ x ∈ l) := by
  intro l
  induction l with
  | nil =>
    intro acc pl x
    simp [setRoomLoop]
  | cons tag rest ih =>
    intro acc pl x
    rw [setRoomLoop_cons]
    by_cases hp : strStarts passNS tag = true
    · rw [if_pos hp, ih, mem_removeTag]
      have hbad : setBad a tok tag = true := by simp [setBad, hp]
      constructor
      · rintro ⟨⟨hxa, hxt⟩, hrest⟩
        refine ⟨hxa, ?_⟩
        rintro ⟨hbx, hmem⟩
        rcases List.mem_cons.mp hmem with h1 | h1
        · exact hxt h1
        · exact hrest ⟨hbx, h1⟩
      · rintro ⟨hxa, hni⟩
        by_cases hx : x = tag
        · subst hx
          exact absurd ⟨hbad, List.mem_cons_self x rest⟩ hni
        · exact ⟨⟨hxa, hx⟩, fun hc => hni ⟨hc.1, List.mem_cons.mpr (Or.inr hc.2)⟩⟩
    · rw [if_neg hp]
      replace hp : strStarts passNS tag = false := by
        cases hq : strStarts passNS tag
        · rfl
        · exact absurd hq hp
      by_cases ha : strStarts authNS tag = true
      · rw [if_pos ha]
        by_cases hm : tokMatches a tok tag = true
        · rw [if_pos hm, ih]
          have hbad : setBad a tok tag = false := by simp [setBad, hp, ha, hm]
          constructor
          · rintro ⟨hxa, hrest⟩
            refine ⟨hxa, ?_⟩
            rintro ⟨hbx, hmem⟩
            rcases List.mem_cons.mp hmem with h1 | h1
            · subst h1; rw [hbad] at hbx; cases hbx
            · exact hrest ⟨hbx, h1⟩
          · rintro ⟨hxa, hni⟩
            exact ⟨hxa, fun hc => hni ⟨hc.1, List.mem_cons.mpr (Or.inr hc.2)⟩⟩
        · rw [if_neg hm, ih, mem_removeTag]
          replace hm : tokMatches a tok tag = false := by
            cases hq : tokMatches a tok tag
            · rfl
            · exact absurd hq hm
          have hbad : setBad a tok tag = true := by simp [setBad, hp, ha, hm]
          constructor
          · rintro ⟨⟨hxa, hxt⟩, hrest⟩
            refine ⟨hxa, ?_⟩
            rintro ⟨hbx, hmem⟩
            rcases List.mem_cons.mp hmem with h1 | h1
            · exact hxt h1
            · exact hrest ⟨hbx, h1⟩
          · rintro ⟨hxa, hni⟩
            by_cases hx : x = tag
            · subst hx
              exact absurd ⟨hbad, List.mem_cons_self x rest⟩ hni
            · exact ⟨⟨hxa, hx⟩, fun hc => hni ⟨hc.1, List.mem_cons.mpr (Or.inr hc.2)⟩⟩
      · rw [if_neg ha, ih]
        replace ha : strStarts authNS tag = false := by
          cases hq : strStarts authNS tag
          · rfl
          · exact absurd hq ha
        have hbad : setBad a tok tag = false := by simp [setBad, hp, ha]
        constructor
        · rintro ⟨hxa, hrest⟩
          refine ⟨hxa, ?_⟩
          rintro ⟨hbx, hmem⟩
          rcases List.mem_cons.mp hmem with h1 | h1
          · subst h1; rw [hbad] at hbx; cases hbx
          · exact hrest ⟨hbx, h1⟩
        · rintro ⟨hxa, hni⟩
          exact ⟨hxa, fun hc => hni ⟨hc.1, List.mem_cons.mpr (Or.inr hc.2)⟩⟩

theorem setRoomLoop_snd (a : Option String) (tok : String) :
    ∀ (l acc : List String) (pl : Bool),
      (setRoomLoop a tok l (acc, pl)).2 =
        (pl || l.any (fun τ =>
          !(strStarts passNS τ) && (strStarts authNS τ && tokMatches a tok τ))) := by
  intro l
  induction l with
  | nil =>
    intro acc pl
    simp [setRoomLoop]
  | cons tag rest ih =>
    intro acc pl
    rw [setRoomLoop_cons, List.any_cons]
    by_cases hp : strStarts passNS tag = true
    · rw [if_pos hp, ih]
      simp [hp]
    · rw [if_neg hp]
      replace hp : strStarts passNS tag = false := by
        cases hq : strStarts passNS tag
        · rfl
        · exact absurd hq hp
      by_cases ha : strStarts authNS tag = true
      · rw [if_pos ha]
        by_cases hm : tokMatches a tok tag = true
        · rw [if_pos hm, ih]
          simp [hp, ha, hm, Bool.or_assoc]
        · rw [if_neg hm, ih]
          replace hm : tokMatches a tok tag = false := by
            cases hq : tokMatches a tok tag
            · rfl
            · exact absurd hq hm
          simp [hp, ha, hm]
      · rw [if_neg ha, ih]
        replace ha : strStarts authNS tag = false := by
          cases hq : strStarts authNS tag
          · rfl
          · exact absurd hq ha
        simp [hp, ha]

theorem setRoomLoop_noop (a : Option String) (tok : String) :
    ∀ (l acc : List String) (pl : Bool),
      (∀ τ ∈ l, setBad a tok τ = false) →
      (setRoomLoop a tok l (acc, pl)).1 = acc := by
  intro l
  induction l with
  | nil =>
    intro acc pl _
    rfl
  | cons tag rest ih =>
    intro acc pl hgood
    rw [setRoomLoop_cons]
    have htag : setBad a tok tag = false := hgood tag (List.mem_cons_self tag rest)
    have hrest : ∀ τ ∈ rest, setBad a tok τ = false :=
      fun τ hτ => hgood τ (List.mem_cons.mpr (Or.inr hτ))
    have hp : strStarts passNS tag = false := by
      unfold setBad at htag
      cases hq : strStarts passNS tag
      · rfl
      · rw [hq] at htag; simp at htag
    rw [if_neg (by rw [hp]; exact Bool.false_ne_true)]
    by_cases ha : strStarts authNS tag = true
    · have hm : tokMatches a tok tag = true := by
        unfold setBad at htag
        rw [hp, ha] at htag
        simpa using htag
      rw [if_pos ha, if_pos hm]
      exact ih acc true hrest
    · rw [if_neg ha]
      exact ih acc pl hrest

theorem set_room_config_def (tags : List String) (cfg : RoomConfig) :
    set_room_config tags cfg =
      (if cfg.auth.isSome &&
          !(setRoomLoop cfg.auth (cfg.auth.getD "")
              (if cfg.block then setTag tags blockTag else removeTag tags blockTag)
              ((if cfg.block then setTag tags blockTag else removeTag tags blockTag),
                false)).2
        then
          setTag
            ((setRoomLoop cfg.auth (cfg.auth.getD "")
              (if cfg.block then setTag tags blockTag else removeTag tags blockTag)
              ((if cfg.block then setTag tags blockTag else removeTag tags blockTag),
                false)).1)
            (authNS ++ cfg.auth.getD "")
        else
          (setRoomLoop cfg.auth (cfg.auth.getD "")
            (if cfg.block then setTag tags blockTag else removeTag tags blockTag)
            ((if cfg.block then setTag tags blockTag else removeTag tags blockTag),
              false)).1) := rfl

theorem setBad_blockTag (a : Option String) (tok : String) :
    setBad a tok blockTag = false := by
  have hpb : strStarts passNS blockTag = false := by decide
  have hab : strStarts authNS blockTag = false := by decide
  simp [setBad, hpb, hab]

theorem mem_blockToggle (tags : List String) (cfg : RoomConfig) :
    blockTag ∈ (if cfg.block then setTag tags blockTag else removeTag tags blockTag) ↔
      cfg.block = true := by
  cases hb : cfg.block
  · simp only [Bool.false_eq_true, if_false]
    rw [mem_removeTag]
    simp
  · simp only [if_true]
    simp [self_mem_setTag]

theorem mem_set_room_config_some (tags : List String) (cfg : RoomConfig) (t : String)
    (hc : cfg.auth = some t) (x : String) :
    x ∈ set_room_config tags cfg ↔
      (x ∈ (if cfg.block then setTag tags blockTag else removeTag tags blockTag) ∧
        ¬(setBad (some t) t x = true ∧
          x ∈ (if cfg.block then setTag tags blockTag else removeTag tags blockTag))) ∨
      ((setRoomLoop (some t) t
          (if cfg.block then setTag tags blockTag else removeTag tags blockTag)
          ((if cfg.block then setTag tags blockTag else removeTag tags blockTag),
            false)).2 = false ∧
        x = authNS ++ t) := by
  rw [set_room_config_def]
  simp only [hc, Option.getD_some, Option.isSome_some, Bool.true_and]
  by_cases hP : (setRoomLoop (some t) t
      (if cfg.block then setTag tags blockTag else removeTag tags blockTag)
      ((if cfg.block then setTag tags blockTag else removeTag tags blockTag),
        false)).2 = true
  · rw [hP]
    simp only [Bool.not_true, Bool.false_eq_true, if_false]
    rw [mem_setRoomLoop]
    constructor
    · exact Or.inl
    · rintro (h | ⟨hf, _⟩)
      · exact h
      · exact absurd hf (by decide)
  · replace hP : (setRoomLoop (some t) t
        (if cfg.block then setTag tags blockTag else removeTag tags blockTag)
        ((if cfg.block then setTag tags blockTag else removeTag tags blockTag),
          false)).2 = false := by
      cases hq : (setRoomLoop (some t) t
          (if cfg.block then setTag tags blockTag else removeTag tags blockTag)
          ((if cfg.block then setTag tags blockTag else removeTag tags blockTag),
            false)).2
      · rfl
      · exact absurd hq hP
    rw [hP]
    rw [if_pos (by decide)]
    rw [mem_setTag, mem_setRoomLoop]
    constructor
    · rintro (h | h)
      · exact Or.inl h
      · exact Or.inr ⟨rfl, h⟩
    · rintro (h | ⟨_, h⟩)
      · exact Or.inl h
      · exact Or.inr h

theorem set_room_config_facts_some (tags : List String) (cfg : RoomConfig) (t : String)
    (hc : cfg.auth = some t) (ht : strStarts authNS t = false) :
    (∀ τ ∈ set_room_config tags cfg, strStarts passNS τ = false) ∧
    (blockTag ∈ set_room_config tags cfg ↔ cfg.block = true) ∧
    (∀ τ ∈ set_room_config tags cfg, strStarts authNS τ = true →
      trimStartMatches authNS τ = t) ∧
    (∃ τ ∈ set_room_config tags cfg, strStarts authNS τ = true) := by
  have hmem := mem_set_room_config_some tags cfg t hc
  have hbadFalse : ∀ τ, τ ∈ (if cfg.block then setTag tags blockTag
      else removeTag tags blockTag) →
      ¬(setBad (some t) t τ = true ∧ τ ∈ (if cfg.block then setTag tags blockTag
        else removeTag tags blockTag)) →
      setBad (some t) t τ = false := by
    intro τ hin hni
    cases hq : setBad (some t) t τ
    · rfl
    · exact absurd ⟨hq, hin⟩ hni
  refine ⟨?_, ?_, ?_, ?_⟩
  · intro τ hτ
    rcases (hmem τ).mp hτ with ⟨hin, hni⟩ | ⟨_, rfl⟩
    · have hb := hbadFalse τ hin hni
      unfold setBad at hb
      cases hp : strStarts passNS τ
      · rfl
      · rw [hp] at hb; simp at hb
    · exact auth_append_not_pass t
  · constructor
    · intro hmem'
      rcases (hmem blockTag).mp hmem' with ⟨hin, _⟩ | ⟨_, heq⟩
      · exact (mem_blockToggle tags cfg).mp hin
      · exact absurd heq (blockTag_ne_auth_append t)
    · intro hb
      apply (hmem blockTag).mpr
      left
      refine ⟨(mem_blockToggle tags cfg).mpr hb, ?_⟩
      rintro ⟨hbad, _⟩
      rw [setBad_blockTag] at hbad
      exact Bool.noConfusion hbad
  · intro τ hτ hauth
    rcases (hmem τ).mp hτ with ⟨hin, hni⟩ | ⟨_, rfl⟩
    · have hb := hbadFalse τ hin hni
      unfold setBad at hb
      rw [hauth] at hb
      have hm : tokMatches (some t) t τ = true := by
        cases hq : tokMatches (some t) t τ
        · rw [hq] at hb; simp at hb
        · rfl
      unfold tokMatches at hm
      simpa using hm
    · exact trimStartMatches_self_append authNS t (by decide) ht
  · cases hP : (setRoomLoop (some t) t
        (if cfg.block then setTag tags blockTag else removeTag tags blockTag)
        ((if cfg.block then setTag tags blockTag else removeTag tags blockTag),
          false)).2
    · refine ⟨authNS ++ t, (hmem _).mpr (Or.inr ⟨hP, rfl⟩), auth_append_starts t⟩
    · rw [setRoomLoop_snd] at hP
      simp only [Bool.false_or] at hP
      obtain ⟨τ, hτT, hpred⟩ := List.any_eq_true.mp hP
      simp only [Bool.and_eq_true, Bool.not_eq_true'] at hpred
      obtain ⟨hpass, hauth, hmatch⟩ := hpred
      have hbad : setBad (some t) t τ = false := by
        unfold setBad
        rw [hpass, hauth, hmatch]
        rfl
      refine ⟨τ, (hmem τ).mpr (Or.inl ⟨hτT, ?_⟩), hauth⟩
      rintro ⟨hbad', _⟩
      rw [hbad] at hbad'
      exact Bool.noConfusion hbad'

theorem set_room_config_facts_none (tags : List String) (cfg : RoomConfig)
    (hc : cfg.auth = none) :
    (∀ τ ∈ set_room_config tags cfg, strStarts passNS τ = false) ∧
    (blockTag ∈ set_room_config tags cfg ↔ cfg.block = true) ∧
    (∀ τ ∈ set_room_config tags cfg, strStarts authNS τ = false) := by
  have hS : set_room_config tags cfg =
      (setRoomLoop none ""
        (if cfg.block then setTag tags blockTag else removeTag tags blockTag)
        ((if cfg.block then setTag tags blockTag else removeTag tags blockTag),
          false)).1 := by
    rw [set_room_config_def]
    simp [hc]
  have hbad_eq : ∀ τ, setBad none "" τ =
      (strStarts passNS τ || strStarts authNS τ) := by
    intro τ
    simp [setBad, tokMatches]
  have hbadFalse : ∀ τ, τ ∈ set_room_config tags cfg → setBad none "" τ = false := by
    intro τ hτ
    rw [hS, mem_setRoomLoop] at hτ
    obtain ⟨hin, hni⟩ := hτ
    cases hq : setBad none "" τ
    · rfl
    · exact absurd ⟨hq, hin⟩ hni
  refine ⟨?_, ?_, ?_⟩
  · intro τ hτ
    have hb := hbadFalse τ hτ
    rw [hbad_eq] at hb
    exact (Bool.or_eq_false_iff.mp hb).1
  · constructor
    · intro hmem'
      rw [hS, mem_setRoomLoop] at hmem'
      exact (mem_blockToggle tags cfg).mp hmem'.1
    · intro hb
      rw [hS, mem_setRoomLoop]
      refine ⟨(mem_blockToggle tags cfg).mpr hb, ?_⟩
      rintro ⟨hbad, _⟩
      rw [hbad_eq, (by decide : strStarts passNS blockTag = false),
        (by decide : strStarts authNS blockTag = false)] at hbad
      exact Bool.noConfusion hbad
  · intro τ hτ
    have hb := hbadFalse τ hτ
    rw [hbad_eq] at hb
    exact (Bool.or_eq_false_iff.mp hb).2

theorem getRoomLoop_cons (tag : String) (rest : List String) (st : RoomConfig × Bool) :
    getRoomLoop (tag :: rest) st =
      getRoomLoop rest
        (if tag == blockTag then
          ({ st.1 with block := true }, st.2)
        else if strStarts authNS tag then
          (if st.1.auth.isSome then st
           else ({ st.1 with auth := some (trimStartMatches authNS tag) }, st.2))
        else if strStarts passNS tag then
          (if st.1.auth.isSome then (st.1, true)
           else ({ st.1 with auth := some (trimStartMatches passNS tag) }, true))
        else st) := rfl

theorem getRoomLoop_noauth :
    ∀ (L : List String) (b : Bool) (a : Option String) (u : Bool),
      (∀ τ ∈ L, strStarts passNS τ = false) →
      (∀ τ ∈ L, strStarts authNS τ = false) →
      getRoomLoop L (⟨b, a⟩, u) = (⟨b || decide (blockTag ∈ L), a⟩, u) := by
  intro L
  induction L with
  | nil =>
    intro b a u _ _
    simp [getRoomLoop]
  | cons tag rest ih =>
    intro b a u hp ha
    have hprest : ∀ τ ∈ rest, strStarts passNS τ = false :=
      fun τ hτ => hp τ (List.mem_cons.mpr (Or.inr hτ))
    have harest : ∀ τ ∈ rest, strStarts authNS τ = false :=
      fun τ hτ => ha τ (List.mem_cons.mpr (Or.inr hτ))
    rw [getRoomLoop_cons]
    by_cases hbt : (tag == blockTag) = true
    · have htag : tag = blockTag := by simpa using hbt
      subst htag
      rw [if_pos hbt]
      rw [ih _ _ _ hprest harest]
      simp [List.mem_cons]
    · rw [if_neg hbt]
      have htag : ¬blockTag = tag := fun h => hbt (by simp [h.symm])
      rw [if_neg (by rw [ha tag (List.mem_cons_self tag rest)]; exact Bool.false_ne_true)]
      rw [if_neg (by rw [hp tag (List.mem_cons_self tag rest)]; exact Bool.false_ne_true)]
      rw [ih _ _ _ hprest harest]
      simp [List.mem_cons, htag]

theorem getRoomLoop_tok (t : String) :
    ∀ (L : List String) (b : Bool) (a : Option String) (u : Bool),
      (∀ τ ∈ L, strStarts passNS τ = false) →
      (∀ τ ∈ L, strStarts authNS τ = true → trimStartMatches authNS τ = t) →
      (a = none ∨ a = some t) →
      getRoomLoop L (⟨b, a⟩, u) =
        (⟨b || decide (blockTag ∈ L),
          if a.isSome || decide (∃ τ ∈ L, strStarts authNS τ = true) then some t
          else none⟩, u) := by
  intro L
  induction L with
  | nil =>
    intro b a u _ _ hat
    rcases hat with rfl | rfl
    · simp [getRoomLoop]
    · simp [getRoomLoop]
  | cons tag rest ih =>
    intro b a u hp htr hat
    have hprest : ∀ τ ∈ rest, strStarts passNS τ = false :=
      fun τ hτ => hp τ (List.mem_cons.mpr (Or.inr hτ))
    have htrrest : ∀ τ ∈ rest, strStarts authNS τ = true → trimStartMatches authNS τ = t :=
      fun τ hτ => htr τ (List.mem_cons.mpr (Or.inr hτ))
    rw [getRoomLoop_cons]
    by_cases hbt : (tag == blockTag) = true
    · have htag : tag = blockTag := by simpa using hbt
      subst htag
      rw [if_pos hbt]
      rw [ih _ _ _ hprest htrrest hat]
      have hba : strStarts authNS blockTag = false := by decide
      simp [List.mem_cons, hba]
    · rw [if_neg hbt]
      have htag : ¬blockTag = tag := fun h => hbt (by simp [h.symm])
      by_cases hau : strStarts authNS tag = true
      · rw [if_pos hau]
        rcases hat with rfl | rfl
        · rw [if_neg (by simp)]
          rw [htr tag (List.mem_cons_self tag rest) hau]
          rw [ih _ _ _ hprest htrrest (Or.inr rfl)]
          simp [List.mem_cons, htag, hau]
        · rw [if_pos (by simp)]
          rw [ih _ _ _ hprest htrrest (Or.inr rfl)]
          simp [List.mem_cons, htag, hau]
      · rw [if_neg hau]
        rw [if_neg (by rw [hp tag (List.mem_cons_self tag rest)]; exact Bool.false_ne_true)]
        rw [ih _ _ _ hprest htrrest hat]
        have hexists : (∃ τ ∈ tag :: rest, strStarts authNS τ = true) ↔
            (∃ τ ∈ rest, strStarts authNS τ = true) := by
          constructor
          · rintro ⟨τ, hτ, hauth⟩
            rcases List.mem_cons.mp hτ with rfl | hτ'
            · exact absurd hauth hau
            · exact ⟨τ, hτ', hauth⟩
          · rintro ⟨τ, hτ, hauth⟩
            exact ⟨τ, List.mem_cons.mpr (Or.inr hτ), hauth⟩
        have hau2 : strStarts authNS tag = false := by
          cases hq : strStarts authNS tag
          · rfl
          · exact absurd hq hau
        simp only [hexists, List.mem_cons]
        simp [htag, hau2]

theorem getRoomLoop_pass (t : String) :
    ∀ (L : List String) (b : Bool) (a : Option String) (u : Bool),
      (∀ τ ∈ L, strStarts authNS τ = false) →
      (∀ τ ∈ L, strStarts passNS τ = true → trimStartMatches passNS τ = t) →
      (a = none ∨ a = some t) →
      getRoomLoop L (⟨b, a⟩, u) =
        (⟨b || decide (blockTag ∈ L),
          if a.isSome || decide (∃ τ ∈ L, strStarts passNS τ = true) then some t
          else none⟩,
         u || decide (∃ τ ∈ L, strStarts passNS τ = true)) := by
  intro L
  induction L with
  | nil =>
    intro b a u _ _ hat
    rcases hat with rfl | rfl
    · simp [getRoomLoop]
    · simp [getRoomLoop]
  | cons tag rest ih =>
    intro b a u ha htr hat
    have harest : ∀ τ ∈ rest, strStarts authNS τ = false :=
      fun τ hτ => ha τ (List.mem_cons.mpr (Or.inr hτ))
    have htrrest : ∀ τ ∈ rest, strStarts passNS τ = true → trimStartMatches passNS τ = t :=
      fun τ hτ => htr τ (List.mem_cons.mpr (Or.inr hτ))
    rw [getRoomLoop_cons]
    by_cases hbt : (tag == blockTag) = true
    · have htag : tag = blockTag := by simpa using hbt
      subst htag
      rw [if_pos hbt]
      rw [ih _ _ _ harest htrrest hat]
      have hbp : strStarts passNS blockTag = false := by decide
      simp [List.mem_cons, hbp]
    · rw [if_neg hbt]
      have htag : ¬blockTag = tag := fun h => hbt (by simp [h.symm])
      rw [if_neg (by rw [ha tag (List.mem_cons_self tag rest)]; exact Bool.false_ne_true)]
      by_cases hpa : strStarts passNS tag = true
      · rw [if_pos hpa]
        rcases hat with rfl | rfl
        · rw [if_neg (by simp)]
          rw [htr tag (List.mem_cons_self tag rest) hpa]
          rw [ih _ _ _ harest htrrest (Or.inr rfl)]
          simp [List.mem_cons, htag, hpa]
        · rw [if_pos (by simp)]
          rw [ih _ _ _ harest htrrest (Or.inr rfl)]
          simp [List.mem_cons, htag, hpa]
      · rw [if_neg hpa]
        rw [ih _ _ _ harest htrrest hat]
        have hexists : (∃ τ ∈ tag :: rest, strStarts passNS τ = true) ↔
            (∃ τ ∈ rest, strStarts passNS τ = true) := by
          constructor
          · rintro ⟨τ, hτ, hpass⟩
            rcases List.mem_cons.mp hτ with rfl | hτ'
            · exact absurd hpass hpa
            · exact ⟨τ, hτ', hpass⟩
          · rintro ⟨τ, hτ, hpass⟩
            exact ⟨τ, List.mem_cons.mpr (Or.inr hτ), hpass⟩
        have hpa2 : strStarts passNS tag = false := by
          cases hq : strStarts passNS tag
          · rfl
          · exact absurd hq hpa
        simp only [hexists, List.mem_cons]
        simp [htag, hpa2]

/-- After `set_room_config`, `get_room_config` reads back exactly the written
config and does not rewrite the room (no legacy tags remain), provided the
written token does not itself start with the auth namespace. -/
theorem get_after_set :
    ∀ (tags : List String) (cfg : RoomConfig),
      (∀ t, cfg.auth = some t → strStarts authNS t = false) →
      get_room_config (set_room_config tags cfg) = (cfg, set_room_config tags cfg) := by
  intro tags cfg hX
  obtain ⟨blk, au⟩ := cfg
  cases au with
  | none =>
    obtain ⟨h1, h2, h3⟩ := set_room_config_facts_none tags ⟨blk, none⟩ rfl
    unfold get_room_config
    rw [getRoomLoop_noauth _ false none false h1 h3]
    simp only [Bool.false_or, Bool.false_eq_true, if_false]
    have hb : decide (blockTag ∈ set_room_config tags ⟨blk, none⟩) = blk := by
      cases hbv : blk
      · subst hbv
        simp only [decide_eq_false_iff_not]
        intro hm
        exact Bool.noConfusion (h2.mp hm)
      · subst hbv
        simp [h2.mpr rfl]
    rw [hb]
  | some t =>
    have hXt := hX t rfl
    obtain ⟨h1, h2, h3, h4⟩ := set_room_config_facts_some tags ⟨blk, some t⟩ t rfl hXt
    unfold get_room_config
    rw [getRoomLoop_tok t _ false none false h1 h3 (Or.inl rfl)]
    have hex : decide (∃ τ ∈ set_room_config tags ⟨blk, some t⟩,
        strStarts authNS τ = true) = true := by
      simp only [decide_eq_true_eq]
      exact h4
    rw [hex]
    simp only [Option.isSome_none, Bool.false_or, Bool.false_eq_true, if_false, if_pos rfl,
      if_true]
    have hb : decide (blockTag ∈ set_room_config tags ⟨blk, some t⟩) = blk := by
      cases hbv : blk
      · subst hbv
        simp only [decide_eq_false_iff_not]
        intro hm
        exact Bool.noConfusion (h2.mp hm)
      · subst hbv
        simp [h2.mpr rfl]
    rw [hb]

/-- Writing the same config twice is a no-op on the tag state, provided the
token does not itself start with the auth namespace. -/
theorem set_set_eq :
    ∀ (tags : List String) (cfg : RoomConfig),
      (∀ t, cfg.auth = some t → strStarts authNS t = false) →
      set_room_config (set_room_config tags cfg) cfg = set_room_config tags cfg := by
  intro tags cfg hX
  cases hc : cfg.auth with
  | none =>
    obtain ⟨h1, h2, h3⟩ := set_room_config_facts_none tags cfg hc
    have hblk : (if cfg.block then setTag (set_room_config tags cfg) blockTag
        else removeTag (set_room_config tags cfg) blockTag) = set_room_config tags cfg := by
      cases hbv : cfg.block
      · rw [if_neg (by decide)]
        apply removeTag_of_not_mem
        intro hm
        have hq := h2.mp hm
        rw [hbv] at hq
        exact Bool.noConfusion hq
      · rw [if_pos rfl]
        exact setTag_of_mem _ _ (h2.mpr hbv)
    rw [set_room_config_def, hblk]
    simp only [hc, Option.isSome_none, Bool.false_and, Bool.false_eq_true, if_false,
      Option.getD_none]
    apply setRoomLoop_noop
    intro τ hτ
    simp [setBad, tokMatches, h1 τ hτ, h3 τ hτ]
  | some t =>
    have hXt := hX t hc
    obtain ⟨h1, h2, h3, h4⟩ := set_room_config_facts_some tags cfg t hc hXt
    have hblk : (if cfg.block then setTag (set_room_config tags cfg) blockTag
        else removeTag (set_room_config tags cfg) blockTag) = set_room_config tags cfg := by
      cases hbv : cfg.block
      · rw [if_neg (by decide)]
        apply removeTag_of_not_mem
        intro hm
        have hq := h2.mp hm
        rw [hbv] at hq
        exact Bool.noConfusion hq
      · rw [if_pos rfl]
        exact setTag_of_mem _ _ (h2.mpr hbv)
    rw [set_room_config_def, hblk]
    simp only [hc, Option.getD_some, Option.isSome_some, Bool.true_and]
    have hgood : ∀ τ ∈ set_room_config tags cfg, setBad (some t) t τ = false := by
      intro τ hτ
      unfold setBad
      rw [h1 τ hτ]
      cases hq : strStarts authNS τ
      · rfl
      · have htrim := h3 τ hτ hq
        unfold tokMatches
        rw [htrim]
        simp
    have hsnd : (setRoomLoop (some t) t (set_room_config tags cfg)
        ((set_room_config tags cfg), false)).2 = true := by
      rw [setRoomLoop_snd]
      simp only [Bool.false_or]
      apply List.any_eq_true.mpr
      obtain ⟨τ, hτ, hauth⟩ := h4
      refine ⟨τ, hτ, ?_⟩
      have hpass := h1 τ hτ
      have htrim := h3 τ hτ hauth
      simp [hpass, hauth, tokMatches, htrim]
    rw [hsnd]
    simp only [Bool.not_true, Bool.and_false, Bool.false_eq_true, if_false]
    exact setRoomLoop_noop _ _ _ _ _ hgood

/-- C2 (amended): for every initial tag state — stale auth or legacy pass tags
included — and every config whose auth token (when set) does not itself start
with the namespace `dev.pokem.auth.`, `set_room_config` followed by
`get_room_config` returns exactly that config without touching the room again,
and a second `set_room_config` leaves the tag state unchanged. -/
theorem c2_round_trip (tags : List String) (cfg : RoomConfig)
    (htok : ∀ t, cfg.auth = some t → strStarts authNS t = false) :
    (get_room_config (set_room_config tags cfg)).1 = cfg ∧
    (get_room_config (set_room_config tags cfg)).2 = set_room_config tags cfg ∧
    set_room_config (set_room_config tags cfg) cfg = set_room_config tags cfg := by
  have h := get_after_set tags cfg htok
  exact ⟨by rw [h], by rw [h], set_set_eq tags cfg htok⟩

/-- C2 counterexample: the token `"dev.pokem.auth.x"` round-trips to `"x"`,
because `get_room_config` strips the namespace with `trim_start_matches`,
which removes *all* leading repetitions of `dev.pokem.auth.`; the claim as
stated (round trip for every config with at most one token) is false. -/
theorem c2_counterexample :
    (get_room_config (set_room_config [] ⟨false, some "dev.pokem.auth.x"⟩)).1 =
      ⟨false, some "x"⟩ ∧
    (⟨false, some "x"⟩ : RoomConfig) ≠ ⟨false, some "dev.pokem.auth.x"⟩ :=
  ⟨rfl, by decide⟩

/-- C2 witness: a concrete round trip through a state holding a stale auth tag
and a legacy pass tag. -/
theorem c2_witness :
    (get_room_config (set_room_config
        ["dev.pokem.pass.old", "dev.pokem.auth.stale", "other"]
        ⟨true, some "tok"⟩)).1 = ⟨true, some "tok"⟩ ∧
    (get_room_config (set_room_config
        ["dev.pokem.pass.old", "dev.pokem.auth.stale", "other"]
        ⟨true, some "tok"⟩)).2 =
      set_room_config ["dev.pokem.pass.old", "dev.pokem.auth.stale", "other"]
        ⟨true, some "tok"⟩ ∧
    set_room_config
        (set_room_config ["dev.pokem.pass.old", "dev.pokem.auth.stale", "other"]
          ⟨true, some "tok"⟩)
        ⟨true, some "tok"⟩ =
      set_room_config ["dev.pokem.pass.old", "dev.pokem.auth.stale", "other"]
        ⟨true, some "tok"⟩ :=
  c2_round_trip _ _ (by intro t ht; cases ht; decide)

/-- C6 (amended): a room holding exactly one legacy tag `dev.pokem.pass.X`
and no auth-namespace tag — where the token `X` does not itself start with
either reserved namespace — yields `auth = X` from one `get_room_config`,
which leaves the room holding `dev.pokem.auth.X`, no legacy tag, and a second
`get_room_config` returns the same `auth = X`. -/
theorem c6_migration (L : List String) (X : String)
    (h1 : (passNS ++ X) ∈ L)
    (h2 : ∀ τ ∈ L, strStarts passNS τ = true → τ = passNS ++ X)
    (h3 : ∀ τ ∈ L, strStarts authNS τ = false)
    (hXp : strStarts passNS X = false)
    (hXa : strStarts authNS X = false) :
    (get_room_config L).1.auth = some X ∧
    (authNS ++ X) ∈ (get_room_config L).2 ∧
    (∀ τ ∈ (get_room_config L).2, strStarts passNS τ = false) ∧
    (get_room_config (get_room_config L).2).1.auth = some X := by
  have htr : ∀ τ ∈ L, strStarts passNS τ = true → trimStartMatches passNS τ = X := by
    intro τ hτ hp
    rw [h2 τ hτ hp]
    exact trimStartMatches_self_append passNS X (by decide) hXp
  have hpassex : decide (∃ τ ∈ L, strStarts passNS τ = true) = true := by
    simp only [decide_eq_true_eq]
    exact ⟨passNS ++ X, h1, pass_append_starts X⟩
  have hget : get_room_config L =
      (⟨decide (blockTag ∈ L), some X⟩,
        set_room_config L ⟨decide (blockTag ∈ L), some X⟩) := by
    unfold get_room_config
    rw [getRoomLoop_pass X L false none false h3 htr (Or.inl rfl)]
    rw [hpassex]
    simp
  obtain ⟨f1, f2, f3, f4⟩ :=
    set_room_config_facts_some L ⟨decide (blockTag ∈ L), some X⟩ X rfl hXa
  refine ⟨by rw [hget], ?_, ?_, ?_⟩
  · rw [hget]
    have hnoauthT : ∀ τ ∈ (if (⟨decide (blockTag ∈ L), some X⟩ : RoomConfig).block
        then setTag L blockTag else removeTag L blockTag),
        strStarts authNS τ = false := by
      intro τ hτ
      by_cases hbv : (⟨decide (blockTag ∈ L), some X⟩ : RoomConfig).block = true
      · rw [if_pos hbv] at hτ
        rcases (mem_setTag L blockTag τ).mp hτ with h | rfl
        · exact h3 τ h
        · decide
      · rw [if_neg hbv] at hτ
        exact h3 τ ((mem_removeTag L blockTag τ).mp hτ).1
    have hplaced : (setRoomLoop (some X) X
        (if (⟨decide (blockTag ∈ L), some X⟩ : RoomConfig).block
          then setTag L blockTag else removeTag L blockTag)
        ((if (⟨decide (blockTag ∈ L), some X⟩ : RoomConfig).block
          then setTag L blockTag else removeTag L blockTag), false)).2 = false := by
      rw [setRoomLoop_snd]
      simp only [Bool.false_or]
      apply List.any_eq_false.mpr
      intro τ hτ
      simp [hnoauthT τ hτ]
    exact (mem_set_room_config_some L ⟨decide (blockTag ∈ L), some X⟩ X rfl
      (authNS ++ X)).mpr (Or.inr ⟨hplaced, rfl⟩)
  · rw [hget]
    exact f1
  · rw [hget]
    have hafter := get_after_set L ⟨decide (blockTag ∈ L), some X⟩
      (by intro t ht; cases ht; exact hXa)
    rw [hafter]

/-- C6 counterexample: with the legacy token `X = "dev.pokem.pass.y"` (tag
`dev.pokem.pass.dev.pokem.pass.y`), `get_room_config` strips the namespace
repeatedly and returns `auth = "y" ≠ X`; the claim as stated (for every
token `X`) is false. -/
theorem c6_counterexample :
    (get_room_config ["dev.pokem.pass.dev.pokem.pass.y"]).1.auth = some "y" ∧
    some "y" ≠ some "dev.pokem.pass.y" :=
  ⟨rfl, by decide⟩

/-- C6 witness: concrete self-healing migration of `dev.pokem.pass.secret`. -/
theorem c6_witness :
    (get_room_config ["dev.pokem.pass.secret"]).1.auth = some "secret" ∧
    (authNS ++ "secret") ∈ (get_room_config ["dev.pokem.pass.secret"]).2 ∧
    (∀ τ ∈ (get_room_config ["dev.pokem.pass.secret"]).2,
      strStarts passNS τ = false) ∧
    (get_room_config (get_room_config ["dev.pokem.pass.secret"]).2).1.auth =
      some "secret" :=
  c6_migration ["dev.pokem.pass.secret"] "secret" (by decide) (by decide) (by decide)
    (by decide) (by decide)

/-- C1 (amended): with no configured token the message passes through.  With a
token, the effective header token is the `authentication` header's value if
that header is present, else the `auth` header's value, else empty; the
message is accepted unchanged when the effective token equals the configured
token, else accepted with all leading repetitions of the token and following
whitespace stripped when the token is a prefix of the message, and rejected
otherwise. -/
theorem c1_validate (cfg : RoomConfig) (headers : List (String × String)) (msg : String) :
    (cfg.auth = none → validate_authentication cfg headers msg = Except.ok msg) ∧
    (∀ tok, cfg.auth = some tok → effectiveToken headers = tok →
      validate_authentication cfg headers msg = Except.ok msg) ∧
    (∀ tok, cfg.auth = some tok → effectiveToken headers ≠ tok →
      strStarts tok msg = true →
      validate_authentication cfg headers msg =
        Except.ok (rustTrimStart (trimStartMatches tok msg))) ∧
    (∀ tok, cfg.auth = some tok → effectiveToken headers ≠ tok →
      strStarts tok msg = false →
      validate_authentication cfg headers msg =
        Except.error "Incorrect Authentication Token") := by
  refine ⟨?_, ?_, ?_, ?_⟩
  · intro h
    simp [validate_authentication, h]
  · intro tok h he
    simp [validate_authentication, h, he]
  · intro tok h he hpre
    simp [validate_authentication, h, he, hpre]
  · intro tok h he hsf
    simp [validate_authentication, h, he, hsf]

/-- C1 counterexample: the `auth` header carries exactly the configured token
`"s"`, yet the request is rejected, because a present-but-wrong
`authentication` header shadows the `auth` header; the claim's "either the
`authentication` or `auth` header equals the token" acceptance is false. -/
theorem c1_counterexample :
    validate_authentication ⟨false, some "s"⟩
        [("authentication", "bad"), ("auth", "s")] "hi" =
      Except.error "Incorrect Authentication Token" := rfl

/-- C1 witness: a matching `auth` header (with no `authentication` header)
passes the message through unchanged. -/
theorem c1_witness :
    validate_authentication ⟨false, some "s"⟩ [("auth", "s")] "msg" =
      Except.ok "msg" :=
  (c1_validate ⟨false, some "s"⟩ [("auth", "s")] "msg").2.1 "s" rfl rfl

/-- C8 (amended): an accepted message-prefix validation strips the token, and
re-validating the stripped message with no token in the headers is rejected —
provided the stripped message does not itself begin with the token again. -/
theorem c8_consume_once (cfg : RoomConfig) (tok msg : String)
    (hs hs2 : List (String × String))
    (hc : cfg.auth = some tok)
    (hhdr : effectiveToken hs ≠ tok)
    (hpre : strStarts tok msg = true)
    (hs2a : headerGet hs2 "authentication" = none)
    (hs2b : headerGet hs2 "auth" = none)
    (hagain : strStarts tok (rustTrimStart (trimStartMatches tok msg)) = false) :
    validate_authentication cfg hs msg =
      Except.ok (rustTrimStart (trimStartMatches tok msg)) ∧
    validate_authentication cfg hs2 (rustTrimStart (trimStartMatches tok msg)) =
      Except.error "Incorrect Authentication Token" := by
  constructor
  · simp [validate_authentication, hc, hhdr, hpre]
  · have hefftok : effectiveToken hs2 = "" := by
      simp [effectiveToken, hs2a, hs2b]
    have htokne : ¬("" = tok) := by
      intro h
      have hemp : ∀ y : String, strStarts "" y = true := by
        intro y
        simp [strStarts]
      rw [← h] at hagain
      rw [hemp] at hagain
      exact Bool.noConfusion hagain
    simp [validate_authentication, hc, hefftok, htokne, hagain]

/-- C8 counterexample: token `"ab"`, message `"ab ab x"`: the first validation
strips all leading repetitions up to `"ab x"`, and re-validating that output
with no header token is accepted again (consuming a second token), not
rejected. -/
theorem c8_counterexample :
    validate_authentication ⟨false, some "ab"⟩ [] "ab ab x" = Except.ok "ab x" ∧
    validate_authentication ⟨false, some "ab"⟩ [] "ab x" = Except.ok "x" :=
  ⟨rfl, rfl⟩

/-- C8 witness: token `"t"`, message `"t hello"`: stripped to `"hello"`, whose
re-validation is rejected. -/
theorem c8_witness :
    validate_authentication ⟨false, some "t"⟩ [] "t hello" = Except.ok "hello" ∧
    validate_authentication ⟨false, some "t"⟩ [] "hello" =
      Except.error "Incorrect Authentication Token" :=
  c8_consume_once ⟨false, some "t"⟩ "t" "t hello" [] [] rfl (by decide) rfl rfl rfl rfl

/-- C3: a room that stays in the invited state forever makes the join-wait
loop of `ping_room` terminate with the join-failure error after sleeps of
2, 4, 8, 16 and 32 seconds — 62 seconds in total, at least 60 and strictly
less than 126 — each sleep double the previous one starting from 2. -/
theorem c3_join_timeout :
    joinWait (fun _ => true) =
      ([2, 4, 8, 16, 32], Except.error "Failed to join room") ∧
    (joinWait (fun _ => true)).1.sum = 62 ∧
    60 ≤ (joinWait (fun _ => true)).1.sum ∧
    (joinWait (fun _ => true)).1.sum < 126 ∧
    (joinWait (fun _ => true)).1.head? = some 2 ∧
    List.Chain' (fun a b => b = 2 * a) (joinWait (fun _ => true)).1 := by
  have h : joinWait (fun _ => true) =
      ([2, 4, 8, 16, 32], Except.error "Failed to join room") := by
    simp [joinWait, joinLoop]
  refine ⟨h, by rw [h]; rfl, by rw [h]; decide, by rw [h]; decide, by rw [h]; rfl, ?_⟩
  rw [h]
  norm_num [List.chain'_cons]

/-- C7: with nicknames `ops ↦ !a:x` and `ops-urgent ↦ !b:x`, a priority-5 poke
for topic `ops` routes to `!b:x` without a room-wide mention; with only
`ops ↦ !a:x` it routes to `!a:x` with the room-wide mention set. -/
theorem c7_urgent_fallback :
    daemon_route (some [("ops", "!a:x"), ("ops-urgent", "!b:x")])
        (from_request none "/ops" [("priority", "5")] [] "disk full") =
      ("!b:x", false) ∧
    daemon_route (some [("ops", "!a:x")])
        (from_request none "/ops" [("priority", "5")] [] "disk full") =
      ("!a:x", true) :=
  ⟨rfl, rfl⟩

/-- C5 (amended): when the body does not deserialize as a JSON `PokeRequest`,
the topic is the raw URL path with leading slashes removed — independent of
query, headers and body (it is percent-decoded later, when `daemon_poke`
turns it into a room id); when the body does deserialize, the whole request,
topic included, is taken verbatim from the JSON body and the URL path is
ignored. -/
theorem c5_topic_source (path bodyStr : String)
    (query headers : List (String × String)) :
    (from_request none path query headers bodyStr).topic =
      ⟨path.data.dropWhile (fun c => c == '/')⟩ ∧
    ∀ pr : PokeRequest, from_request (some pr) path query headers bodyStr = pr :=
  ⟨rfl, fun _ => rfl⟩

/-- C5 counterexample: the body `\x7b"topic":"evil","message":"m"\x7d`
deserializes as a `PokeRequest` with topic `"evil"`, and the resulting
notification for a request on path `/ops` carries topic `"evil"` taken from
the body, not `"ops"` from the URL path — the claim's "never taken from the
request body" is false when the body parses as JSON. -/
theorem c5_counterexample :
    (from_request (some { topic := "evil", message := "m" }) "/ops" [] []
        "\x7b\"topic\":\"evil\",\"message\":\"m\"\x7d").topic = "evil" ∧
    ("evil" : String) ≠ "ops" :=
  ⟨rfl, by decide⟩

theorem wordPriority_range (s : String) : 1 ≤ wordPriority s ∧ wordPriority s ≤ 5 := by
  unfold wordPriority
  split <;> omega

theorem wordPriority_default (s : String)
    (h : toLowerStr s ∉
      (["min", "low", "default", "high", "urgent", "max"] : List String)) :
    wordPriority s = 3 := by
  unfold wordPriority
  split <;> simp_all

theorem headerFallback_cases (headers : List (String × String)) (p : Nat)
    (h : (priorityHeaderVal headers).map
        (fun s => (parseU8 s).getD (wordPriority s)) = some p) :
    (1 ≤ p ∧ p ≤ 5) ∨
    (∃ s, parseU8 s = some p ∧ priorityHeaderVal headers = some s) := by
  cases hh : priorityHeaderVal headers with
  | none =>
    rw [hh] at h
    exact absurd h (by simp)
  | some s =>
    rw [hh] at h
    simp only [Option.map_some'] at h
    cases hps : parseU8 s with
    | some v =>
      rw [hps] at h
      simp only [Option.getD_some] at h
      exact Or.inr ⟨s, by rw [hps, h], rfl⟩
    | none =>
      rw [hps] at h
      simp only [Option.getD_none] at h
      rw [← Option.some_inj.mp h]
      exact Or.inl (wordPriority_range s)

/-- C4 (amended): a priority outside 1..5 can only come from a successful
numeric parse of the `priority` query parameter or of a priority header
(e.g. `"9"` stays 9 — there is no clamping of numeric values); a non-numeric
header value is mapped through the word table into 1..5, and unrecognized
text yields 3. -/
theorem c4_priority (query headers : List (String × String)) :
    (∀ p, extractPriority query headers = some p →
      (1 ≤ p ∧ p ≤ 5) ∨
      (∃ s, parseU8 s = some p ∧
        (queryGet query "priority" = some s ∨ priorityHeaderVal headers = some s))) ∧
    (∀ s, 1 ≤ wordPriority s ∧ wordPriority s ≤ 5) ∧
    (∀ s, toLowerStr s ∉
        (["min", "low", "default", "high", "urgent", "max"] : List String) →
      wordPriority s = 3) := by
  refine ⟨?_, wordPriority_range, wordPriority_default⟩
  intro p hp
  unfold extractPriority at hp
  split at hp
  · rename_i s hq
    split at hp
    · rename_i v hps
      exact Or.inr ⟨s, by rw [hps]; exact hp, Or.inl hq⟩
    · rcases headerFallback_cases headers p hp with h | ⟨s2, h1, h2⟩
      · exact Or.inl h
      · exact Or.inr ⟨s2, h1, Or.inr h2⟩
  · rcases headerFallback_cases headers p hp with h | ⟨s2, h1, h2⟩
    · exact Or.inl h
    · exact Or.inr ⟨s2, h1, Or.inr h2⟩

/-- C4 counterexample: the query string `priority=9` produces a notification
with priority 9, outside 1..5 — numeric values are not clamped; the claim as
stated is false. -/
theorem c4_counterexample :
    (from_request none "/t" [("priority", "9")] [] "").priority = some 9 ∧
    ¬(9 ≤ 5) :=
  ⟨rfl, by decide⟩

/-- C4 witness: the header word `high` maps into the 1..5 range. -/
theorem c4_witness :
    (1 ≤ 4 ∧ 4 ≤ 5) ∨
    (∃ s, parseU8 s = some 4 ∧
      (queryGet [] "priority" = some s ∨
        priorityHeaderVal [("p", "high")] = some s)) :=
  (c4_priority [] [("p", "high")]).1 4 rfl

theorem urgentOf_iff (p : Option Nat) :
    urgentOf p = true ↔ ∃ v, p = some v ∧ 3 < v := by
  cases p <;> simp [urgentOf]

theorem resolve_not_urgent (rooms : Option (List (String × String))) (rid : String) :
    (daemonResolveRoom rooms false rid).2 = false := by
  cases rooms with
  | none => rfl
  | some r =>
    cases hq : roomsGet r rid <;> simp [daemonResolveRoom, hq]

theorem fallback_not_urgent (headers : List (String × String))
    (hh : ∀ s, priorityHeaderVal headers = some s →
      parseU8 s = none ∧ toLowerStr s ∉
        (["min", "low", "default", "high", "urgent", "max"] : List String)) :
    urgentOf ((priorityHeaderVal headers).map
      (fun s => (parseU8 s).getD (wordPriority s))) = false := by
  cases hph : priorityHeaderVal headers with
  | none => rfl
  | some s =>
    obtain ⟨hp, hw⟩ := hh s hph
    simp [urgentOf, hp, wordPriority_default s hw]

/-- C10: a poke is routed as urgent exactly when its priority is present and
greater than 3 (in particular 4 is urgent), and a poke whose priority is
absent, or whose priority text neither parses numerically nor is a recognized
word, never sets the room-wide-mention flag. -/
theorem c10_urgent_routing (query headers : List (String × String))
    (rooms : Option (List (String × String))) (rid : String) :
    (urgentOf (extractPriority query headers) = true ↔
      ∃ v, extractPriority query headers = some v ∧ 3 < v) ∧
    urgentOf (some 4) = true ∧
    (extractPriority query headers = none →
      (daemonResolveRoom rooms (urgentOf (extractPriority query headers)) rid).2 =
        false) ∧
    ((∀ s, queryGet query "priority" = some s →
        parseU8 s = none ∧ toLowerStr s ∉
          (["min", "low", "default", "high", "urgent", "max"] : List String)) →
      (∀ s, priorityHeaderVal headers = some s →
        parseU8 s = none ∧ toLowerStr s ∉
          (["min", "low", "default", "high", "urgent", "max"] : List String)) →
      (daemonResolveRoom rooms (urgentOf (extractPriority query headers)) rid).2 =
        false) := by
  refine ⟨urgentOf_iff _, rfl, ?_, ?_⟩
  · intro hnone
    rw [hnone]
    exact resolve_not_urgent rooms rid
  · intro hq hh
    have hfalse : urgentOf (extractPriority query headers) = false := by
      unfold extractPriority
      split
      · rename_i s hqs
        split
        · rename_i v hps
          exact absurd hps (by simp [(hq s hqs).1])
        · exact fallback_not_urgent headers hh
      · exact fallback_not_urgent headers hh
    rw [hfalse]
    exact resolve_not_urgent rooms rid

/-- C10 witness: a request with no priority source routes without a room-wide
mention. -/
theorem c10_witness :
    (daemonResolveRoom none (urgentOf (extractPriority [] [])) "ops").2 = false :=
  (c10_urgent_routing [] [] none "ops").2.2.1 rfl

/-- C9 (amended): the example room is admitted unconditionally (block tag
included); every other room with the block tag is refused, and the refusal is
silent — `ping_room`'s final step returns success without attempting a send;
a room without the block tag is admitted whatever its active membership — the
configured room-size ceiling is not consulted by this policy. -/
theorem c9_send_policy (r : MRoom) (sendOk : Bool) :
    (r.roomId = exampleRoomId → can_message_room r = true) ∧
    (r.roomId ≠ exampleRoomId → blockTag ∈ r.tags → can_message_room r = false) ∧
    (can_message_room r = false →
      pingRoomSendStep r sendOk = (false, Except.ok ())) ∧
    (r.roomId ≠ exampleRoomId → blockTag ∉ r.tags → can_message_room r = true) := by
  refine ⟨?_, ?_, ?_, ?_⟩
  · intro h
    simp [can_message_room, h]
  · intro h hb
    simp [can_message_room, h, hb]
  · intro h
    simp [pingRoomSendStep, h]
  · intro h hb
    simp [can_message_room, h, hb]

/-- C9 counterexample: a non-example room with 1000 active members and no
block tag is admitted by `can_message_room` — the function never reads the
membership count (the configured `room_size_limit` is only passed to the
external bot library), so the claimed over-ceiling refusal is false for any
ceiling below 1000. -/
theorem c9_counterexample :
    can_message_room ⟨"!big:server.org", [], 1000⟩ = true := rfl

/-- C9 witness: the example room passes even with its block tag set. -/
theorem c9_witness :
    can_message_room ⟨exampleRoomId, [blockTag], 3⟩ = true :=
  (c9_send_policy ⟨exampleRoomId, [blockTag], 3⟩ true).1 rfl
